import Mathlib

/-!
Verification development for the CAUGHT-IN-CLASS face-attendance application.

The embedding covers the recognition/dedup pipeline of
`workers.py` (class `DetectionWorker`) and the registry of
`face_manager.py` (class `FaceManager`).

Modelling conventions:
* numpy `float64` values are modelled as rationals (`ℚ`); the Euclidean
  distance comparison `dist < 0.6` of `workers.py:231` is modelled by the
  equivalent comparison of squared distances `dist² < 9/25`, which avoids
  square roots while deciding exactly the same branch (both sides are
  nonnegative and squaring is strictly monotone on nonnegatives);
* a numpy face-encoding array offers two views used by the code: its numeric
  values (used for distances) and its raw byte serialization
  (`tobytes()`, used for hashing).  IEEE-754 serialization is not
  reproduced, so a detected face carries both views as separate fields;
* `hashlib.md5(s.encode()).hexdigest()` is a fixed deterministic function of
  the string `s`, so the detection hash is represented by its md5 preimage
  string: equal preimages give equal digests, hence every hash collision
  proved here is a collision of the real code as well;
* Python `set`s are represented by lists queried with membership (the code
  only inserts an element after a negative membership test, so list and set
  semantics agree); Python `dict`s by association lists;
* effects of external libraries (face_recognition results, `cv2.imwrite`
  success, pickle-write success) are passed to the modelled functions as
  explicit arguments.
-/

namespace CIC

/-- A face embedding: the numeric values of the 128-dimensional
`face_recognition` encoding vector, as rationals. -/
abbrev Encoding := List ℚ

/-- An image (a numpy pixel array); its contents are opaque to all the logic
modelled here, so it is represented by its byte contents. -/
abbrev Image := List Nat

/-- Lowercase hexadecimal digit for a value `0 ≤ n < 16`, as produced by
Python's `bytes.hex()`. -/
def hexChar (n : Nat) : Char :=
  if n < 10 then Char.ofNat (48 + n) else Char.ofNat (87 + n)

/-- The character stream of Python's `bytes.hex()`: two lowercase hex digits
per byte, most significant nibble first. -/
def bytesHexChars : List Nat → List Char
  | [] => []
  | b :: bs => hexChar (b / 16) :: hexChar (b % 16) :: bytesHexChars bs

/-- Model of `DetectionWorker._generate_detection_hash` (workers.py:283-287):
`hash_input = f"{name}_{face_encoding.tobytes().hex()[:32]}"`, then
`md5(hash_input).hexdigest()`.  The hash is represented by the md5 preimage
`hash_input` (see the module docstring); `encBytes` is the `tobytes()`
serialization of the encoding. -/
def generate_detection_hash (encBytes : List Nat) (name : String) : String :=
  String.mk (name.data ++ '_' :: (bytesHexChars encBytes).take 32)

/-- A detected face as handed to `DetectionWorker._process_single_face`:
the encoding's numeric values, the encoding's `tobytes()` serialization,
the cropped face image and the (top, right, bottom, left) location. -/
structure Face where
  encoding : Encoding
  encBytes : List Nat
  crop : Image
  location : Nat × Nat × Nat × Nat
deriving DecidableEq

/-- A detection-result entry as built by `_process_known_face` /
`_process_unknown_face` (workers.py:253-260, 274-281). -/
structure DetectionEvent where
  type : String
  name : String
  face_crop : Image
  face_location : Nat × Nat × Nat × Nat
  detection_hash : String
  status : String
deriving DecidableEq

/-- The per-session dedup state of `DetectionWorker`:
`session_seen_known` and `session_seen_unknown_hashes` (workers.py:94-95). -/
structure SessionState where
  seenKnown : List String
  seenUnknownHashes : List String
deriving DecidableEq

/-- Model of `DetectionWorker.reset_session` (workers.py:136-140): clears both
session sets. -/
def reset_session (_s : SessionState) : SessionState := ⟨[], []⟩

/-- Model of `DetectionWorker._process_known_face` (workers.py:241-260): skip if the
name was already seen this session, else mark it seen and return one event. -/
def process_known_face (s : SessionState) (name : String) (f : Face) :
    Option DetectionEvent × SessionState :=
  if name ∈ s.seenKnown then
    (none, s)
  else
    (some { type := "known", name := name, face_crop := f.crop,
            face_location := f.location,
            detection_hash := generate_detection_hash f.encBytes name,
            status := "Present" },
     { s with seenKnown := name :: s.seenKnown })

/-- Model of `DetectionWorker._process_unknown_face` (workers.py:262-281): hash the
face, skip if the hash was already seen this session, else mark it seen and
return one event. -/
def process_unknown_face (s : SessionState) (f : Face) :
    Option DetectionEvent × SessionState :=
  let unknown_hash := generate_detection_hash f.encBytes "Unknown"
  if unknown_hash ∈ s.seenUnknownHashes then
    (none, s)
  else
    (some { type := "unknown", name := "Unknown", face_crop := f.crop,
            face_location := f.location,
            detection_hash := unknown_hash,
            status := "Unknown" },
     { s with seenUnknownHashes := unknown_hash :: s.seenUnknownHashes })

/-- Squared Euclidean distance between two encodings, the square of
`face_recognition.face_distance` (see the module docstring). -/
def face_distance_sq (known : Encoding) (enc : Encoding) : ℚ :=
  (List.zipWith (fun a b => (a - b) ^ 2) known enc).sum

/-- Model of `np.argmin` over a list: index and value of the first minimum
(workers.py:228). -/
def argmin : List ℚ → Option (Nat × ℚ)
  | [] => none
  | x :: xs =>
    match argmin xs with
    | none => some (0, x)
    | some (i, v) => if v < x then some (i + 1, v) else some (0, x)

/-- The classification a face receives. -/
inductive FaceClass where
  | known (name : String)
  | unknown
deriving DecidableEq

/-- The decision structure of `DetectionWorker._process_single_face`
(workers.py:222-235): Unknown when the registry is empty; else take the
minimum distance to the known encodings and classify Known with the
minimizing name exactly when that minimum is strictly below the 0.6
threshold (squared: 9/25). -/
def classify_face (encs : List Encoding) (names : List String)
    (enc : Encoding) : FaceClass :=
  if encs.isEmpty then
    FaceClass.unknown
  else
    match argmin (encs.map (fun k => face_distance_sq k enc)) with
    | none => FaceClass.unknown
    | some (i, v) =>
      if v < 9 / 25 then FaceClass.known (names.getD i "")
      else FaceClass.unknown

/-- Model of `DetectionWorker._process_single_face` (workers.py:214-239): classify the
face by the threshold rule and dispatch to `_process_known_face` or
`_process_unknown_face`. -/
def process_single_face (encs : List Encoding) (names : List String)
    (s : SessionState) (f : Face) : Option DetectionEvent × SessionState :=
  match classify_face encs names f.encoding with
  | FaceClass.known name => process_known_face s name f
  | FaceClass.unknown => process_unknown_face s f

/-- Processing a sequence of detected faces within one session (the per-face
loop of `process_frame`, workers.py:194-197, over any number of frames with
no intervening `reset_session`): collects the emitted events and threads the
session state. -/
def process_faces (encs : List Encoding) (names : List String)
    (s : SessionState) : List Face → List DetectionEvent × SessionState
  | [] => ([], s)
  | f :: fs =>
    let r := process_single_face encs names s f
    let rest := process_faces encs names r.2 fs
    (r.1.toList ++ rest.1, rest.2)

/-- Number of emitted events that report a Known detection of name `n`. -/
def knownEventCount (n : String) (evs : List DetectionEvent) : Nat :=
  evs.countP fun e => e.type == "known" && e.name == n

/-- Number of emitted events that report an Unknown detection with
detection hash `h`. -/
def unknownEventCount (h : String) (evs : List DetectionEvent) : Nat :=
  evs.countP fun e => e.type == "unknown" && e.detection_hash == h

/-- A camera frame queued for detection; its pixel content is never
inspected by the queueing and scheduling logic, so it is opaque. -/
abbrev Frame := Nat

/-- The frame-scheduling state of `DetectionWorker` (workers.py:98-100):
`last_processing_time`, `processing_interval` and the single
`pending_frame` slot.  Times are seconds as rationals. -/
structure DetectorState where
  pendingFrame : Option Frame
  lastProcessingTime : ℚ
  processingInterval : ℚ
deriving DecidableEq

/-- Model of `DetectionWorker.set_processing_interval` (workers.py:112-115):
`self.processing_interval = max(0.5, interval)`. -/
def set_processing_interval (st : DetectorState) (interval : ℚ) : DetectorState :=
  { st with processingInterval := max (1 / 2) interval }

/-- Model of `DetectionWorker.queue_frame` (workers.py:117-129): unconditionally
replace the pending frame with the new one (the old one is discarded). -/
def queue_frame (st : DetectorState) (frame : Frame) : DetectorState :=
  { st with pendingFrame := some frame }

/-- Model of `DetectionWorker.should_process_frame` (workers.py:131-134):
`(current_time - last_processing_time) >= processing_interval`. -/
def should_process_frame (st : DetectorState) (now : ℚ) : Bool :=
  decide (st.processingInterval ≤ now - st.lastProcessingTime)

/-- One iteration of the `DetectionWorker.run` loop body
(workers.py:150-159) at wall-clock time `now`: when a frame is pending and
the interval has elapsed, that frame is handed to `process_frame`, the
last-processing timestamp is updated and the slot is cleared; otherwise
nothing happens.  The returned option is the frame handed to processing. -/
def run_step (st : DetectorState) (now : ℚ) : Option Frame × DetectorState :=
  match st.pendingFrame with
  | some f =>
    if should_process_frame st now then
      (some f, { st with lastProcessingTime := now, pendingFrame := none })
    else
      (none, st)
  | none => (none, st)

/-- The scheduling-relevant calls other threads can make on the worker
between two processing runs: queueing frames and changing the interval. -/
inductive WorkerOp where
  | queueOp (f : Frame)
  | setIntervalOp (i : ℚ)

/-- Apply one scheduling call to the worker state. -/
def apply_op (st : DetectorState) : WorkerOp → DetectorState
  | WorkerOp.queueOp f => queue_frame st f
  | WorkerOp.setIntervalOp i => set_processing_interval st i

/-- Apply a sequence of scheduling calls to the worker state. -/
def apply_ops (st : DetectorState) (ops : List WorkerOp) : DetectorState :=
  ops.foldl apply_op st

/-- The registry state of `FaceManager` (face_manager.py:20-22):
parallel lists of encodings and names, and the name-indexed dictionary of
stored face images. -/
structure FMState where
  known_face_encodings : List Encoding
  known_face_names : List String
  known_face_images : List (String × Image)
deriving DecidableEq

/-- A successfully scanned entry of the faces directory, as appended by
`FaceManager._load_known_faces` (face_manager.py:166-196): the name parsed
from the filename, the computed encoding and the loaded image. -/
structure DirEntry where
  name : String
  encoding : Encoding
  image : Image
deriving DecidableEq

/-- Dictionary assignment `d[k] = v` on an association list. -/
def dictInsert (d : List (String × Image)) (k : String) (v : Image) :
    List (String × Image) :=
  (k, v) :: d.filter fun p => !(p.1 == k)

/-- Model of `FaceManager._load_known_faces` (face_manager.py:159-204): append every
scanned directory entry to the encoding and name lists and store its image
under its name. -/
def load_known_faces (st : FMState) : List DirEntry → FMState
  | [] => st
  | e :: es =>
    load_known_faces
      { known_face_encodings := st.known_face_encodings ++ [e.encoding],
        known_face_names := st.known_face_names ++ [e.name],
        known_face_images := dictInsert st.known_face_images e.name e.image }
      es

/-- The content of the `encodings.pkl` snapshot read by
`FaceManager._load_persistent_encodings`. -/
structure Snapshot where
  encodings : List Encoding
  names : List String
deriving DecidableEq

/-- Model of `FaceManager._load_persistent_encodings` (face_manager.py:34-49) plus
`_load_images_for_persistent_encodings` (face_manager.py:51-64): when the
snapshot file exists, the encoding and name lists are ASSIGNED from the
snapshot (replacing whatever the directory scan put there), and for each
snapshot name whose image is found in the faces directory that image is
stored in the image dictionary.  When no snapshot exists, nothing changes. -/
def load_persistent_encodings (st : FMState) (dir : List DirEntry) :
    Option Snapshot → FMState
  | none => st
  | some snap =>
    { known_face_encodings := snap.encodings,
      known_face_names := snap.names,
      known_face_images :=
        snap.names.foldl
          (fun imgs n =>
            match dir.find? (fun e => e.name == n) with
            | some e => dictInsert imgs n e.image
            | none => imgs)
          st.known_face_images }

/-- The reverse scan of `FaceManager._remove_duplicate_encodings`
(face_manager.py:319-327) on an already-reversed entry list: keep the first
occurrence of each name. -/
def keepFirstByName : List (String × Encoding) → List String → List (String × Encoding)
  | [], _ => []
  | (n, e) :: rest, seen =>
    if n ∈ seen then keepFirstByName rest seen
    else (n, e) :: keepFirstByName rest (n :: seen)

/-- Model of `FaceManager._remove_duplicate_encodings` (face_manager.py:311-334):
scan the (name, encoding) pairs from the last index down, keep the first
occurrence of each name, each kept entry being inserted at the front — so
the result keeps, in the original order, the last occurrence of every name;
the image dictionary is rebuilt from the kept names that have images. -/
def remove_duplicate_encodings (st : FMState) : FMState :=
  let entries := st.known_face_names.zip st.known_face_encodings
  let kept := (keepFirstByName entries.reverse []).reverse
  { known_face_encodings := kept.map Prod.snd,
    known_face_names := kept.map Prod.fst,
    known_face_images :=
      kept.filterMap fun p =>
        (st.known_face_images.lookup p.1).map fun img => (p.1, img) }

/-- Model of `FaceManager.__init__` (face_manager.py:17-32): directory scan, then
snapshot load, with NO duplicate-removal pass. -/
def init_load (dir : List DirEntry) (snap : Option Snapshot) : FMState :=
  load_persistent_encodings (load_known_faces ⟨[], [], []⟩ dir) dir snap

/-- Model of `FaceManager.refresh_faces` (face_manager.py:279-293): clear, reload
from the directory, load the snapshot, then remove duplicates. -/
def refresh_faces (dir : List DirEntry) (snap : Option Snapshot) : FMState :=
  remove_duplicate_encodings
    (load_persistent_encodings (load_known_faces ⟨[], [], []⟩ dir) dir snap)

/-- Python's `str.strip()` with no argument: remove leading and trailing
whitespace (the code calls it on registration names, face_manager.py:102 and
106; ASCII whitespace semantics). -/
def strip (s : String) : String :=
  String.mk (((s.data.dropWhile Char.isWhitespace).reverse.dropWhile
    Char.isWhitespace).reverse)

/-- Model of `FaceManager.register_unknown_face` (face_manager.py:98-157).  External
effects appear as arguments: `encodings` is the result of
`face_recognition.face_encodings` on the (converted) crop, `imwriteOk` the
success of `cv2.imwrite`, `saveOk` the result of
`_save_persistent_encodings` — which the code discards (line 150), and
which cannot raise because `_save_persistent_encodings` catches every
exception (face_manager.py:94-96).  The `detection_hash` parameter is
accepted and never used, as in the code. -/
def register_unknown_face (st : FMState) (face_crop : Image)
    (detection_hash : String) (encodings : List Encoding)
    (imwriteOk : Bool) (saveOk : Bool) (name : String) : Bool × FMState :=
  if strip name = "" then
    (false, st)
  else
    let n := strip name
    if n ∈ st.known_face_names then
      (false, st)
    else
      match encodings with
      | [] => (false, st)
      | e :: _ =>
        if imwriteOk then
          (true,
           { known_face_encodings := st.known_face_encodings ++ [e],
             known_face_names := st.known_face_names ++ [n],
             known_face_images := dictInsert st.known_face_images n face_crop })
        else
          (false, st)

/-- A concrete detected face used to instantiate theorems with hypotheses. -/
def sampleFace : Face := ⟨[0], [0], [0], (0, 0, 0, 0)⟩

theorem argmin_eq_none {l : List ℚ} : argmin l = none ↔ l = [] := by
  cases l with
  | nil => simp [argmin]
  | cons x xs =>
    simp only [argmin]
    cases hxs : argmin xs with
    | none => simp
    | some p =>
      obtain ⟨i, v⟩ := p
      by_cases hv : v < x <;> simp [hv]

theorem argmin_spec : ∀ {l : List ℚ} {i : ℕ} {v : ℚ}, argmin l = some (i, v) →
    i < l.length ∧ l.getD i 0 = v ∧ ∀ j, j < l.length → v ≤ l.getD j 0 := by
  intro l
  induction l with
  | nil => intro i v h; simp [argmin] at h
  | cons x xs ih =>
    intro i v h
    simp only [argmin] at h
    cases hxs : argmin xs with
    | none =>
      rw [hxs] at h
      simp only [Option.some.injEq, Prod.mk.injEq] at h
      obtain ⟨hi, hv⟩ := h
      subst hi; subst hv
      have hnil : xs = [] := argmin_eq_none.mp hxs
      subst hnil
      refine ⟨by simp, by simp, ?_⟩
      intro j hj
      simp only [List.length_cons, List.length_nil] at hj
      have : j = 0 := by omega
      subst this
      simp
    | some p =>
      obtain ⟨i', v'⟩ := p
      rw [hxs] at h
      dsimp only at h
      obtain ⟨hlt, hget, hle⟩ := ih hxs
      by_cases hv : v' < x
      · rw [if_pos hv] at h
        simp only [Option.some.injEq, Prod.mk.injEq] at h
        obtain ⟨hi, hvv⟩ := h
        subst hi; subst hvv
        refine ⟨by simpa using Nat.succ_lt_succ hlt, by simpa using hget, ?_⟩
        intro j hj
        cases j with
        | zero => simpa using le_of_lt hv
        | succ k =>
          simp only [List.getD_cons_succ]
          exact hle k (by simpa using Nat.lt_of_succ_lt_succ hj)
      · rw [if_neg hv] at h
        simp only [Option.some.injEq, Prod.mk.injEq] at h
        obtain ⟨hi, hvv⟩ := h
        subst hi; subst hvv
        refine ⟨by simp, by simp, ?_⟩
        intro j hj
        cases j with
        | zero => simp
        | succ k =>
          simp only [List.getD_cons_succ]
          exact le_trans (le_of_not_lt hv) (hle k (by simpa using Nat.lt_of_succ_lt_succ hj))

/-- C3: for every detected face, an empty registry classifies it Unknown;
otherwise the engine takes the distances to every known encoding, their
minimum is attained at the argmin index, and the face is classified Known
with the minimizing identity's name exactly when that minimum (squared)
distance is strictly below the squared threshold `(0.6)² = 9/25`, else
Unknown. -/
theorem c3_classification_threshold (encs : List Encoding) (names : List String)
    (enc : Encoding) :
    (encs = [] → classify_face encs names enc = FaceClass.unknown) ∧
    (encs ≠ [] →
      ∃ i v, argmin (encs.map fun k => face_distance_sq k enc) = some (i, v) ∧
        i < encs.length ∧
        (encs.map fun k => face_distance_sq k enc).getD i 0 = v ∧
        (∀ j, j < encs.length →
          v ≤ (encs.map fun k => face_distance_sq k enc).getD j 0) ∧
        classify_face encs names enc =
          (if v < 9 / 25 then FaceClass.known (names.getD i "")
           else FaceClass.unknown)) := by
  constructor
  · intro h
    subst h
    simp [classify_face]
  · intro h
    have hds : (encs.map fun k => face_distance_sq k enc) ≠ [] := by
      simpa using h
    cases hm : argmin (encs.map fun k => face_distance_sq k enc) with
    | none => exact absurd (argmin_eq_none.mp hm) hds
    | some p =>
      obtain ⟨i, v⟩ := p
      obtain ⟨hlt, hget, hle⟩ := argmin_spec hm
      refine ⟨i, v, rfl, by simpa using hlt, hget, ?_, ?_⟩
      · intro j hj
        exact hle j (by simpa using hj)
      · simp only [classify_face, hm]
        rw [if_neg (by simpa using h)]

/-- Witness for C3 at a concrete registry and face. -/
theorem c3_classification_threshold_witness :
    ([[(0 : ℚ)]] : List Encoding) ≠ [] ∧
    ∃ i v, argmin ([[(0 : ℚ)]].map fun k => face_distance_sq k [(1 : ℚ) / 2]) = some (i, v) ∧
      i < ([[(0 : ℚ)]] : List Encoding).length ∧
      ([[(0 : ℚ)]].map fun k => face_distance_sq k [(1 : ℚ) / 2]).getD i 0 = v ∧
      (∀ j, j < ([[(0 : ℚ)]] : List Encoding).length →
        v ≤ ([[(0 : ℚ)]].map fun k => face_distance_sq k [(1 : ℚ) / 2]).getD j 0) ∧
      classify_face [[(0 : ℚ)]] ["Alice"] [(1 : ℚ) / 2] =
        (if v < 9 / 25 then FaceClass.known (["Alice"].getD i "")
         else FaceClass.unknown) :=
  ⟨by decide,
   (c3_classification_threshold [[(0 : ℚ)]] ["Alice"] [(1 : ℚ) / 2]).2 (by decide)⟩

theorem seenKnown_mono (encs : List Encoding) (names : List String)
    (s : SessionState) (f : Face) (a : String) (ha : a ∈ s.seenKnown) :
    a ∈ (process_single_face encs names s f).2.seenKnown := by
  unfold process_single_face
  cases classify_face encs names f.encoding with
  | known n =>
    unfold process_known_face
    by_cases hn : n ∈ s.seenKnown
    · simp [hn, ha]
    · simp only [if_neg hn]
      exact List.mem_cons_of_mem _ ha
  | unknown =>
    unfold process_unknown_face
    by_cases hh : generate_detection_hash f.encBytes "Unknown" ∈ s.seenUnknownHashes
    · simp [hh, ha]
    · simp [if_neg hh, ha]

theorem seenUnknown_mono (encs : List Encoding) (names : List String)
    (s : SessionState) (f : Face) (a : String) (ha : a ∈ s.seenUnknownHashes) :
    a ∈ (process_single_face encs names s f).2.seenUnknownHashes := by
  unfold process_single_face
  cases classify_face encs names f.encoding with
  | known n =>
    unfold process_known_face
    by_cases hn : n ∈ s.seenKnown
    · simp [hn, ha]
    · simp [if_neg hn, ha]
  | unknown =>
    unfold process_unknown_face
    by_cases hh : generate_detection_hash f.encBytes "Unknown" ∈ s.seenUnknownHashes
    · simp [hh, ha]
    · simp only [if_neg hh]
      exact List.mem_cons_of_mem _ ha

theorem emit_known_spec (encs : List Encoding) (names : List String)
    (s : SessionState) (f : Face) (e : DetectionEvent) (s' : SessionState)
    (h : process_single_face encs names s f = (some e, s'))
    (ht : e.type = "known") :
    e.name ∉ s.seenKnown ∧ e.name ∈ s'.seenKnown := by
  unfold process_single_face at h
  cases hc : classify_face encs names f.encoding with
  | known n =>
    rw [hc] at h
    dsimp only at h
    unfold process_known_face at h
    by_cases hn : n ∈ s.seenKnown
    · rw [if_pos hn] at h
      simp at h
    · rw [if_neg hn] at h
      simp only [Prod.mk.injEq, Option.some.injEq] at h
      obtain ⟨he, hs⟩ := h
      subst he; subst hs
      exact ⟨hn, List.mem_cons_self _ _⟩
  | unknown =>
    rw [hc] at h
    dsimp only at h
    unfold process_unknown_face at h
    by_cases hh : generate_detection_hash f.encBytes "Unknown" ∈ s.seenUnknownHashes
    · rw [if_pos hh] at h
      simp at h
    · rw [if_neg hh] at h
      simp only [Prod.mk.injEq, Option.some.injEq] at h
      obtain ⟨he, _⟩ := h
      subst he
      simp at ht

theorem emit_unknown_spec (encs : List Encoding) (names : List String)
    (s : SessionState) (f : Face) (e : DetectionEvent) (s' : SessionState)
    (h : process_single_face encs names s f = (some e, s'))
    (ht : e.type = "unknown") :
    e.detection_hash ∉ s.seenUnknownHashes ∧ e.detection_hash ∈ s'.seenUnknownHashes := by
  unfold process_single_face at h
  cases hc : classify_face encs names f.encoding with
  | known n =>
    rw [hc] at h
    dsimp only at h
    unfold process_known_face at h
    by_cases hn : n ∈ s.seenKnown
    · rw [if_pos hn] at h
      simp at h
    · rw [if_neg hn] at h
      simp only [Prod.mk.injEq, Option.some.injEq] at h
      obtain ⟨he, _⟩ := h
      subst he
      simp at ht
  | unknown =>
    rw [hc] at h
    dsimp only at h
    unfold process_unknown_face at h
    by_cases hh : generate_detection_hash f.encBytes "Unknown" ∈ s.seenUnknownHashes
    · rw [if_pos hh] at h
      simp at h
    · rw [if_neg hh] at h
      simp only [Prod.mk.injEq, Option.some.injEq] at h
      obtain ⟨he, hs⟩ := h
      subst he; subst hs
      exact ⟨hh, List.mem_cons_self _ _⟩

theorem knownEventCount_le_one (encs : List Encoding) (names : List String)
    (n : String) : ∀ (fs : List Face) (s : SessionState),
    (n ∈ s.seenKnown → knownEventCount n (process_faces encs names s fs).1 = 0) ∧
    knownEventCount n (process_faces encs names s fs).1 ≤ 1 := by
  intro fs
  induction fs with
  | nil => intro s; simp [process_faces, knownEventCount]
  | cons f fs ih =>
    intro s
    cases hr : process_single_face encs names s f with
    | mk e s1 =>
      have hstep : process_faces encs names s (f :: fs) =
          (e.toList ++ (process_faces encs names s1 fs).1,
           (process_faces encs names s1 fs).2) := by
        simp [process_faces, hr]
      rw [hstep]
      simp only [knownEventCount, List.countP_append] at *
      cases e with
      | none =>
        simp only [Option.toList_none, List.countP_nil, Nat.zero_add]
        have hmono : n ∈ s.seenKnown → n ∈ s1.seenKnown := by
          intro hm
          have := seenKnown_mono encs names s f n hm
          rw [hr] at this
          exact this
        exact ⟨fun hm => (ih s1).1 (hmono hm), (ih s1).2⟩
      | some ev =>
        simp only [Option.toList_some, List.countP_cons, List.countP_nil, Nat.zero_add]
        by_cases hp : (ev.type == "known" && ev.name == n) = true
        · have htype : ev.type = "known" := by
            have := (Bool.and_eq_true _ _).mp hp
            exact beq_iff_eq.mp this.1
          have hname : ev.name = n := by
            have := (Bool.and_eq_true _ _).mp hp
            exact beq_iff_eq.mp this.2
          obtain ⟨hnot, hin⟩ := emit_known_spec encs names s f ev s1 hr htype
          rw [hname] at hnot hin
          have hzero := (ih s1).1 hin
          constructor
          · intro hm
            exact absurd hm hnot
          · simp [hp, hzero]
        · rw [if_neg hp]
          have hmono : n ∈ s.seenKnown → n ∈ s1.seenKnown := by
            intro hm
            have := seenKnown_mono encs names s f n hm
            rw [hr] at this
            exact this
          refine ⟨fun hm => by simpa using (ih s1).1 (hmono hm), by simpa using (ih s1).2⟩

theorem unknownEventCount_le_one (encs : List Encoding) (names : List String)
    (hsh : String) : ∀ (fs : List Face) (s : SessionState),
    (hsh ∈ s.seenUnknownHashes →
      unknownEventCount hsh (process_faces encs names s fs).1 = 0) ∧
    unknownEventCount hsh (process_faces encs names s fs).1 ≤ 1 := by
  intro fs
  induction fs with
  | nil => intro s; simp [process_faces, unknownEventCount]
  | cons f fs ih =>
    intro s
    cases hr : process_single_face encs names s f with
    | mk e s1 =>
      have hstep : process_faces encs names s (f :: fs) =
          (e.toList ++ (process_faces encs names s1 fs).1,
           (process_faces encs names s1 fs).2) := by
        simp [process_faces, hr]
      rw [hstep]
      simp only [unknownEventCount, List.countP_append] at *
      cases e with
      | none =>
        simp only [Option.toList_none, List.countP_nil, Nat.zero_add]
        have hmono : hsh ∈ s.seenUnknownHashes → hsh ∈ s1.seenUnknownHashes := by
          intro hm
          have := seenUnknown_mono encs names s f hsh hm
          rw [hr] at this
          exact this
        exact ⟨fun hm => (ih s1).1 (hmono hm), (ih s1).2⟩
      | some ev =>
        simp only [Option.toList_some, List.countP_cons, List.countP_nil, Nat.zero_add]
        by_cases hp : (ev.type == "unknown" && ev.detection_hash == hsh) = true
        · have htype : ev.type = "unknown" := by
            have := (Bool.and_eq_true _ _).mp hp
            exact beq_iff_eq.mp this.1
          have hhash : ev.detection_hash = hsh := by
            have := (Bool.and_eq_true _ _).mp hp
            exact beq_iff_eq.mp this.2
          obtain ⟨hnot, hin⟩ := emit_unknown_spec encs names s f ev s1 hr htype
          rw [hhash] at hnot hin
          have hzero := (ih s1).1 hin
          constructor
          · intro hm
            exact absurd hm hnot
          · simp [hp, hzero]
        · rw [if_neg hp]
          have hmono : hsh ∈ s.seenUnknownHashes → hsh ∈ s1.seenUnknownHashes := by
            intro hm
            have := seenUnknown_mono encs names s f hsh hm
            rw [hr] at this
            exact this
          refine ⟨fun hm => by simpa using (ih s1).1 (hmono hm), by simpa using (ih s1).2⟩

/-- C1: within one session (no reset), the engine emits at most one event
per known name and at most one event per unknown detection hash; processing
a Known face whose name is already in the seen-known set, or an Unknown face
whose hash is already in the seen-unknown-hash set, produces no event and
leaves the session state unchanged; otherwise the name (resp. hash) is added
to the session set and exactly one event is produced for that face. -/
theorem c1_dedup_per_session (s : SessionState) (name : String) (f : Face)
    (encs : List Encoding) (names : List String) (s0 : SessionState)
    (fs : List Face) (n hsh : String) :
    (name ∈ s.seenKnown → process_known_face s name f = (none, s)) ∧
    (name ∉ s.seenKnown →
      process_known_face s name f =
        (some { type := "known", name := name, face_crop := f.crop,
                face_location := f.location,
                detection_hash := generate_detection_hash f.encBytes name,
                status := "Present" },
         { s with seenKnown := name :: s.seenKnown })) ∧
    (generate_detection_hash f.encBytes "Unknown" ∈ s.seenUnknownHashes →
      process_unknown_face s f = (none, s)) ∧
    (generate_detection_hash f.encBytes "Unknown" ∉ s.seenUnknownHashes →
      process_unknown_face s f =
        (some { type := "unknown", name := "Unknown", face_crop := f.crop,
                face_location := f.location,
                detection_hash := generate_detection_hash f.encBytes "Unknown",
                status := "Unknown" },
         { s with seenUnknownHashes :=
             generate_detection_hash f.encBytes "Unknown" :: s.seenUnknownHashes })) ∧
    knownEventCount n (process_faces encs names s0 fs).1 ≤ 1 ∧
    unknownEventCount hsh (process_faces encs names s0 fs).1 ≤ 1 := by
  refine ⟨?_, ?_, ?_, ?_, ?_, ?_⟩
  · intro h; simp [process_known_face, h]
  · intro h; simp [process_known_face, h]
  · intro h; simp [process_unknown_face, h]
  · intro h; simp [process_unknown_face, h]
  · exact (knownEventCount_le_one encs names n fs s0).2
  · exact (unknownEventCount_le_one encs names hsh fs s0).2

/-- Witness for C1: a seen name is skipped with the state unchanged, and a
seen unknown hash is skipped with the state unchanged, at concrete inputs. -/
theorem c1_dedup_per_session_witness :
    process_known_face ⟨["Alice"], []⟩ "Alice" sampleFace = (none, ⟨["Alice"], []⟩) ∧
    process_unknown_face ⟨[], [generate_detection_hash [0] "Unknown"]⟩ sampleFace =
      (none, ⟨[], [generate_detection_hash [0] "Unknown"]⟩) :=
  ⟨(c1_dedup_per_session ⟨["Alice"], []⟩ "Alice" sampleFace [] [] ⟨[], []⟩ [] "" "").1
      (by simp),
   (c1_dedup_per_session ⟨[], [generate_detection_hash [0] "Unknown"]⟩ "" sampleFace
      [] [] ⟨[], []⟩ [] "" "").2.2.1 (by simp [sampleFace])⟩

/-- C2: processing the same known face twice within one session emits
exactly one event for that name (the first feed emits, the second does
not); `reset_session` clears both session sets, and calling it between the
two feeds makes each feed emit, two events in total. -/
theorem c2_same_face_twice_one_event (s : SessionState) (name : String)
    (f f' : Face) (h : name ∉ s.seenKnown) :
    ((process_known_face s name f).1.isSome = true) ∧
    ((process_known_face (process_known_face s name f).2 name f').1 = none) ∧
    (∀ t : SessionState, reset_session t = ⟨[], []⟩) ∧
    ((process_known_face (reset_session (process_known_face s name f).2) name f').1.isSome
      = true) := by
  refine ⟨?_, ?_, fun _ => rfl, ?_⟩
  · simp [process_known_face, h]
  · simp [process_known_face, h]
  · simp [process_known_face, reset_session, h]

/-- Witness for C2 at a concrete fresh session and name. -/
theorem c2_same_face_twice_one_event_witness :
    "Alice" ∉ SessionState.seenKnown ⟨[], []⟩ ∧
    (((process_known_face ⟨[], []⟩ "Alice" sampleFace).1.isSome = true) ∧
     ((process_known_face (process_known_face ⟨[], []⟩ "Alice" sampleFace).2
        "Alice" sampleFace).1 = none) ∧
     (∀ t : SessionState, reset_session t = ⟨[], []⟩) ∧
     ((process_known_face
        (reset_session (process_known_face ⟨[], []⟩ "Alice" sampleFace).2)
        "Alice" sampleFace).1.isSome = true)) :=
  ⟨by simp, c2_same_face_twice_one_event ⟨[], []⟩ "Alice" sampleFace sampleFace (by simp)⟩

theorem run_step_fires {st st' : DetectorState} {t : ℚ} {f : Frame}
    (h : run_step st t = (some f, st')) :
    st.processingInterval ≤ t - st.lastProcessingTime ∧
    st'.lastProcessingTime = t ∧
    st'.processingInterval = st.processingInterval ∧
    st'.pendingFrame = none ∧
    st.pendingFrame = some f := by
  unfold run_step at h
  cases hp : st.pendingFrame with
  | none => rw [hp] at h; simp at h
  | some g =>
    rw [hp] at h
    dsimp only at h
    by_cases hs : should_process_frame st t
    · rw [if_pos hs] at h
      simp only [Prod.mk.injEq, Option.some.injEq] at h
      obtain ⟨hf, hst⟩ := h
      subst hf; subst hst
      have := of_decide_eq_true hs
      exact ⟨this, rfl, rfl, rfl, rfl⟩
    · rw [if_neg hs] at h
      simp at h

/-- C4: the pending-frame slot holds at most one frame.  Any nonempty burst
of `queue_frame` calls leaves exactly the most recently queued frame in the
slot; when the run loop fires, the frame handed to processing is exactly the
slot's frame, the slot is cleared afterwards, and firing again without a new
`queue_frame` hands nothing to processing — no frame is processed twice. -/
theorem c4_pending_frame_slot (st st' : DetectorState) (fs : List Frame)
    (t t' : ℚ) (f : Frame) :
    (fs ≠ [] → (fs.foldl queue_frame st).pendingFrame = fs.getLast?) ∧
    (run_step st t = (some f, st') →
      st.pendingFrame = some f ∧ st'.pendingFrame = none ∧
      (run_step st' t').1 = none) := by
  constructor
  · intro hfs
    induction fs generalizing st with
    | nil => exact absurd rfl hfs
    | cons x xs ih =>
      cases xs with
      | nil => simp [queue_frame]
      | cons y ys =>
        rw [List.foldl_cons, ih (queue_frame st x) (by simp), List.getLast?_cons_cons]
  · intro h
    obtain ⟨_, _, _, hclear, hpend⟩ := run_step_fires h
    refine ⟨hpend, hclear, ?_⟩
    unfold run_step
    rw [hclear]

/-- Witness for C4 at a concrete burst of queued frames and a firing step. -/
theorem c4_pending_frame_slot_witness :
    (([1, 2] : List Frame) ≠ [] ∧
      (([1, 2] : List Frame).foldl queue_frame ⟨none, 0, 2⟩).pendingFrame =
        ([1, 2] : List Frame).getLast?) ∧
    (DetectorState.pendingFrame ⟨some 5, 0, 1 / 2⟩ = some 5 ∧
      DetectorState.pendingFrame ⟨none, 1, 1 / 2⟩ = none ∧
      (run_step ⟨none, 1, 1 / 2⟩ 2).1 = none) :=
  ⟨⟨by decide,
    (c4_pending_frame_slot ⟨none, 0, 2⟩ ⟨none, 0, 2⟩ [1, 2] 0 0 0).1 (by decide)⟩,
   (c4_pending_frame_slot ⟨some 5, 0, 1 / 2⟩ ⟨none, 1, 1 / 2⟩ [] 1 2 5).2
     (by norm_num [run_step, should_process_frame])⟩

theorem apply_ops_lastTime (ops : List WorkerOp) : ∀ st : DetectorState,
    (apply_ops st ops).lastProcessingTime = st.lastProcessingTime := by
  induction ops with
  | nil => intro st; rfl
  | cons op ops ih =>
    intro st
    cases op with
    | queueOp f => exact ih (queue_frame st f)
    | setIntervalOp i => exact ih (set_processing_interval st i)

theorem apply_ops_interval_ge (ops : List WorkerOp) : ∀ st : DetectorState,
    1 / 2 ≤ st.processingInterval →
    1 / 2 ≤ (apply_ops st ops).processingInterval := by
  induction ops with
  | nil => intro st h; exact h
  | cons op ops ih =>
    intro st h
    cases op with
    | queueOp f => exact ih (queue_frame st f) h
    | setIntervalOp i => exact ih (set_processing_interval st i) (le_max_left _ _)

/-- C5: `set_processing_interval` clamps to a floor of 0.5 seconds, so the
interval is at least 0.5 after every call; the run loop hands a frame to
processing only when the elapsed time since the last processing timestamp is
at least the interval; hence two consecutive processing runs — whatever
`queue_frame` and `set_processing_interval` calls happen in between — are
spaced at least 0.5 seconds apart whenever the interval held the floor
before the first run (as it does after any `set_processing_interval` call,
and initially, since the constructor sets it to 2). -/
theorem c5_interval_floor (st st1 st2 : DetectorState) (i t1 t2 : ℚ)
    (f1 f2 : Frame) (ops : List WorkerOp) :
    (1 / 2 ≤ (set_processing_interval st i).processingInterval) ∧
    (run_step st t1 = (some f1, st1) →
      st.processingInterval ≤ t1 - st.lastProcessingTime) ∧
    (1 / 2 ≤ st.processingInterval →
      run_step st t1 = (some f1, st1) →
      run_step (apply_ops st1 ops) t2 = (some f2, st2) →
      1 / 2 ≤ t2 - t1) := by
  refine ⟨le_max_left _ _, fun h => (run_step_fires h).1, ?_⟩
  intro hI h1 h2
  obtain ⟨_, hlast1, hint1, _, _⟩ := run_step_fires h1
  have helapsed := (run_step_fires h2).1
  have hlast : (apply_ops st1 ops).lastProcessingTime = t1 := by
    rw [apply_ops_lastTime, hlast1]
  have hint : 1 / 2 ≤ (apply_ops st1 ops).processingInterval :=
    apply_ops_interval_ge ops st1 (by rw [hint1]; exact hI)
  rw [hlast] at helapsed
  exact le_trans hint helapsed

/-- Witness for C5 at a concrete pair of processing runs 1 second apart. -/
theorem c5_interval_floor_witness :
    ((1 : ℚ) / 2 ≤ DetectorState.processingInterval ⟨some 1, 0, 1 / 2⟩ ∧
      run_step ⟨some 1, 0, 1 / 2⟩ 1 = (some 1, ⟨none, 1, 1 / 2⟩) ∧
      run_step (apply_ops ⟨none, 1, 1 / 2⟩ [WorkerOp.queueOp 2]) 2 =
        (some 2, ⟨none, 2, 1 / 2⟩)) ∧
    (1 : ℚ) / 2 ≤ 2 - 1 :=
  ⟨⟨by norm_num, by norm_num [run_step, should_process_frame],
    by norm_num [run_step, should_process_frame, apply_ops, apply_op, queue_frame]⟩,
   (c5_interval_floor ⟨some 1, 0, 1 / 2⟩ ⟨none, 1, 1 / 2⟩ ⟨none, 2, 1 / 2⟩ 0 1 2 1 2
      [WorkerOp.queueOp 2]).2.2 (by norm_num)
     (by norm_num [run_step, should_process_frame])
     (by norm_num [run_step, should_process_frame, apply_ops, apply_op, queue_frame])⟩

/-- C6 (evaluation at the failing input): with the faces directory holding
only "Bob" and the persisted snapshot holding only "Alice", both the
startup load and `refresh_faces` end with names `["Alice"]` — the
directory-only entry "Bob" is NOT retained, because
`_load_persistent_encodings` assigns the snapshot's lists over the
directory-scanned ones instead of merging them; "Bob" survives only when
no snapshot exists. -/
theorem c6_snapshot_replaces_directory :
    (refresh_faces [⟨"Bob", [(1 : ℚ)], [7]⟩]
        (some ⟨[[(2 : ℚ)]], ["Alice"]⟩)).known_face_names = ["Alice"] ∧
    "Bob" ∉ (refresh_faces [⟨"Bob", [(1 : ℚ)], [7]⟩]
        (some ⟨[[(2 : ℚ)]], ["Alice"]⟩)).known_face_names ∧
    (init_load [⟨"Bob", [(1 : ℚ)], [7]⟩]
        (some ⟨[[(2 : ℚ)]], ["Alice"]⟩)).known_face_names = ["Alice"] ∧
    (refresh_faces [⟨"Bob", [(1 : ℚ)], [7]⟩] none).known_face_names = ["Bob"] := by
  decide

/-- C7 counterexample: two embeddings whose byte serializations agree on the
first 16 bytes but differ afterwards are distinct, yet they receive the same
detection hash (their md5 inputs coincide because only the first 32 hex
characters of the serialization are hashed). -/
theorem c7_hash_not_injective_on_bytes :
    generate_detection_hash (List.replicate 16 0 ++ [1]) "Unknown" =
      generate_detection_hash (List.replicate 16 0 ++ [2]) "Unknown" ∧
    (List.replicate 16 0 ++ [1] : List Nat) ≠ List.replicate 16 0 ++ [2] := by
  decide

theorem bytesHexChars_take_congr : ∀ (n : Nat) (b1 b2 : List Nat),
    b1.take n = b2.take n →
    (bytesHexChars b1).take (2 * n) = (bytesHexChars b2).take (2 * n) := by
  intro n
  induction n with
  | zero => intro b1 b2 _; simp
  | succ m ih =>
    intro b1 b2 h
    cases b1 with
    | nil =>
      cases b2 with
      | nil => rfl
      | cons y ys => simp [List.take_succ_cons] at h
    | cons x xs =>
      cases b2 with
      | nil => simp [List.take_succ_cons] at h
      | cons y ys =>
        simp only [List.take_succ_cons, List.cons.injEq] at h
        obtain ⟨hxy, ht⟩ := h
        subst hxy
        have h2 : 2 * (m + 1) = 2 * m + 1 + 1 := by ring
        simp only [bytesHexChars, h2, List.take_succ_cons]
        rw [ih xs ys ht]

/-- C7 (amended): for a fixed name, the detection hash is determined by the
first 32 hex characters — the first 16 bytes — of the embedding's byte
serialization: embeddings agreeing on their first 16 bytes receive the same
hash, so byte-identity of the full embeddings is NOT required for hash
equality. -/
theorem c7_hash_determined_by_first_16_bytes (name : String) (b1 b2 : List Nat)
    (h : b1.take 16 = b2.take 16) :
    generate_detection_hash b1 name = generate_detection_hash b2 name := by
  unfold generate_detection_hash
  have h32 : (32 : Nat) = 2 * 16 := by norm_num
  rw [h32, bytesHexChars_take_congr 16 b1 b2 h]

/-- Witness for C7 (amended) at concrete byte lists agreeing on the first 16
bytes. -/
theorem c7_hash_determined_by_first_16_bytes_witness :
    (List.replicate 16 0 ++ [3] : List Nat).take 16 =
      (List.replicate 16 0 ++ [4] : List Nat).take 16 ∧
    generate_detection_hash (List.replicate 16 0 ++ [3]) "Alice" =
      generate_detection_hash (List.replicate 16 0 ++ [4]) "Alice" :=
  ⟨by decide,
   c7_hash_determined_by_first_16_bytes "Alice" (List.replicate 16 0 ++ [3])
     (List.replicate 16 0 ++ [4]) (by decide)⟩

theorem register_success_spec {st st1 : FMState} {crop : Image} {dh : String}
    {encs : List Encoding} {iw sv : Bool} {name : String}
    (h : register_unknown_face st crop dh encs iw sv name = (true, st1)) :
    strip name ≠ "" ∧ strip name ∉ st.known_face_names ∧ iw = true ∧
    ∃ e rest, encs = e :: rest ∧
      st1 = ⟨st.known_face_encodings ++ [e], st.known_face_names ++ [strip name],
             dictInsert st.known_face_images (strip name) crop⟩ := by
  unfold register_unknown_face at h
  by_cases h1 : strip name = ""
  · rw [if_pos h1] at h
    simp at h
  · rw [if_neg h1] at h
    dsimp only at h
    by_cases h2 : strip name ∈ st.known_face_names
    · rw [if_pos h2] at h
      simp at h
    · rw [if_neg h2] at h
      cases encs with
      | nil => simp at h
      | cons e rest =>
        dsimp only at h
        by_cases h3 : iw = true
        · rw [if_pos h3] at h
          simp only [Prod.mk.injEq, true_and] at h
          exact ⟨h1, h2, h3, e, rest, rfl, h.symm⟩
        · rw [if_neg h3] at h
          simp at h

/-- C8: `register_unknown_face` returns failure when the name is empty or
whitespace-only, when the trimmed name is already registered, and when no
face embedding could be computed from the crop; and after a successful
registration of a name, registering the same name again fails with the
registry state (in particular its size) unchanged. -/
theorem c8_register_failure_paths (st st1 : FMState) (crop crop' : Image)
    (dh dh' : String) (encs encs' : List Encoding) (iw iw' sv sv' : Bool)
    (name : String) :
    (strip name = "" →
      register_unknown_face st crop dh encs iw sv name = (false, st)) ∧
    (strip name ∈ st.known_face_names →
      register_unknown_face st crop dh encs iw sv name = (false, st)) ∧
    ((register_unknown_face st crop dh [] iw sv name).1 = false) ∧
    (register_unknown_face st crop dh encs iw sv name = (true, st1) →
      register_unknown_face st1 crop' dh' encs' iw' sv' name = (false, st1)) := by
  refine ⟨?_, ?_, ?_, ?_⟩
  · intro h
    simp [register_unknown_face, h]
  · intro h
    unfold register_unknown_face
    by_cases h1 : strip name = ""
    · rw [if_pos h1]
    · rw [if_neg h1]
      dsimp only
      rw [if_pos h]
  · unfold register_unknown_face
    by_cases h1 : strip name = ""
    · rw [if_pos h1]
    · rw [if_neg h1]
      dsimp only
      by_cases h2 : strip name ∈ st.known_face_names
      · rw [if_pos h2]
      · rw [if_neg h2]
  · intro h
    obtain ⟨h1, _, _, e, rest, _, hst1⟩ := register_success_spec h
    have hmem : strip name ∈ st1.known_face_names := by
      rw [hst1]
      exact List.mem_append_right _ (List.mem_singleton.mpr rfl)
    unfold register_unknown_face
    rw [if_neg h1]
    dsimp only
    rw [if_pos hmem]

/-- Witness for C8: registering "Alice" into an empty registry succeeds, and
registering "Alice" again fails leaving the registry unchanged; an empty
name, a whitespace name and an empty encoding list fail as well. -/
theorem c8_register_failure_paths_witness :
    register_unknown_face ⟨[], [], []⟩ [1] "h" [[(1 : ℚ)]] true true "  " =
      (false, ⟨[], [], []⟩) ∧
    register_unknown_face ⟨[[(1 : ℚ)]], ["Alice"], []⟩ [1] "h" [[(1 : ℚ)]] true true
      "Alice" = (false, ⟨[[(1 : ℚ)]], ["Alice"], []⟩) ∧
    (register_unknown_face ⟨[], [], []⟩ [1] "h" [] true true "Alice").1 = false ∧
    register_unknown_face
      ⟨[[(1 : ℚ)]], ["Alice"], [("Alice", [1])]⟩ [2] "g" [[(2 : ℚ)]] true true
      "Alice" = (false, ⟨[[(1 : ℚ)]], ["Alice"], [("Alice", [1])]⟩) :=
  ⟨(c8_register_failure_paths ⟨[], [], []⟩ ⟨[], [], []⟩ [1] [1] "h" "h" [[(1 : ℚ)]]
      [[(1 : ℚ)]] true true true true "  ").1 (by decide),
   (c8_register_failure_paths ⟨[[(1 : ℚ)]], ["Alice"], []⟩ ⟨[], [], []⟩ [1] [1] "h" "h"
      [[(1 : ℚ)]] [[(1 : ℚ)]] true true true true "Alice").2.1 (by decide),
   (c8_register_failure_paths ⟨[], [], []⟩ ⟨[], [], []⟩ [1] [1] "h" "h" [] [] true true
      true true "Alice").2.2.1,
   (c8_register_failure_paths ⟨[], [], []⟩
      ⟨[[(1 : ℚ)]], ["Alice"], [("Alice", [1])]⟩ [1] [2] "h" "g" [[(1 : ℚ)]]
      [[(2 : ℚ)]] true true true true "Alice").2.2.2 (by decide)⟩

/-- C9: a failed persistent-snapshot write during `register_unknown_face` is
non-fatal to the in-memory update: with a valid fresh name, a computable
encoding and a successful image write, registration with the snapshot write
failing still reports success and leaves the new identity appended to the
in-memory encodings, names and images; the call's outcome does not depend on
the snapshot write's result at all. -/
theorem c9_persistence_failure_nonfatal (st : FMState) (crop : Image)
    (dh : String) (e : Encoding) (rest : List Encoding) (name : String)
    (h1 : strip name ≠ "") (h2 : strip name ∉ st.known_face_names) :
    register_unknown_face st crop dh (e :: rest) true false name =
      (true, ⟨st.known_face_encodings ++ [e], st.known_face_names ++ [strip name],
              dictInsert st.known_face_images (strip name) crop⟩) ∧
    (∀ (sv sv' iw : Bool) (encs2 : List Encoding),
      register_unknown_face st crop dh encs2 iw sv name =
        register_unknown_face st crop dh encs2 iw sv' name) := by
  constructor
  · unfold register_unknown_face
    rw [if_neg h1]
    dsimp only
    rw [if_neg h2, if_pos rfl]
  · intro sv sv' iw encs2
    rfl

/-- Witness for C9: registering "Alice" into an empty registry with the
snapshot write failing still succeeds and appends her in memory. -/
theorem c9_persistence_failure_nonfatal_witness :
    strip "Alice" ≠ "" ∧ strip "Alice" ∉ FMState.known_face_names ⟨[], [], []⟩ ∧
    register_unknown_face ⟨[], [], []⟩ [1] "h" [[(1 : ℚ)]] true false "Alice" =
      (true, ⟨[] ++ [[(1 : ℚ)]], [] ++ [strip "Alice"],
              dictInsert [] (strip "Alice") [1]⟩) :=
  ⟨by decide, by decide,
   (c9_persistence_failure_nonfatal ⟨[], [], []⟩ [1] "h" [(1 : ℚ)] [] "Alice"
      (by decide) (by decide)).1⟩

/-- C10: whenever `register_unknown_face` fails, the in-memory registry is
returned exactly as it was — every failure path, including a failed image
write, exits before any mutation; moreover a failed image write can never
yield success, so it aborts the registration rather than being treated as a
non-fatal persistence error. -/
theorem c10_failure_preserves_state (st st' : FMState) (crop : Image)
    (dh : String) (encs : List Encoding) (iw sv : Bool) (name : String) :
    (register_unknown_face st crop dh encs iw sv name = (false, st') →
      st' = st) ∧
    ((register_unknown_face st crop dh encs false sv name).1 = false) := by
  constructor
  · intro h
    unfold register_unknown_face at h
    by_cases h1 : strip name = ""
    · rw [if_pos h1] at h
      exact ((Prod.mk.inj h).2).symm
    · rw [if_neg h1] at h
      dsimp only at h
      by_cases h2 : strip name ∈ st.known_face_names
      · rw [if_pos h2] at h
        exact ((Prod.mk.inj h).2).symm
      · rw [if_neg h2] at h
        cases encs with
        | nil => exact ((Prod.mk.inj h).2).symm
        | cons e rest =>
          dsimp only at h
          by_cases h3 : iw = true
          · rw [if_pos h3] at h
            simp at h
          · rw [if_neg h3] at h
            exact ((Prod.mk.inj h).2).symm
  · unfold register_unknown_face
    by_cases h1 : strip name = ""
    · rw [if_pos h1]
    · rw [if_neg h1]
      dsimp only
      by_cases h2 : strip name ∈ st.known_face_names
      · rw [if_pos h2]
      · rw [if_neg h2]
        cases encs with
        | nil => rfl
        | cons e rest => simp

/-- Witness for C10: a duplicate-name failure and an image-write failure
both leave a concrete registry exactly as it was. -/
theorem c10_failure_preserves_state_witness :
    ((⟨[[(1 : ℚ)]], ["Alice"], []⟩ : FMState) = ⟨[[(1 : ℚ)]], ["Alice"], []⟩) ∧
    ((register_unknown_face ⟨[[(1 : ℚ)]], ["Alice"], []⟩ [1] "h" [[(2 : ℚ)]]
        false true "Bob").1 = false) :=
  ⟨(c10_failure_preserves_state ⟨[[(1 : ℚ)]], ["Alice"], []⟩
      ⟨[[(1 : ℚ)]], ["Alice"], []⟩ [1] "h" [[(2 : ℚ)]] true true "Alice").1
      (by decide),
   (c10_failure_preserves_state ⟨[[(1 : ℚ)]], ["Alice"], []⟩
      ⟨[[(1 : ℚ)]], ["Alice"], []⟩ [1] "h" [[(2 : ℚ)]] false true "Bob").2⟩

end CIC
